import Mathlib

/-!
Verification of the wradlib visualisation module (`wradlib/vis.py`).

This file shallowly embeds the numeric and control-flow content of the
module: the north-up clockwise polar transform and its advertised inverse,
the tick-vector heuristics (module-level `get_tick_vector` and the
`cg_plot.get_tick_vector` method), the colormap discretization in
`PolarPlot.set_cmap` / `CartesianPlot.set_cmap`, the mesh-argument
pipelines of `polar_plot` / `polar_plot2` / `PolarPlot.plot`, the vector
setup and range restriction of `rhi_plot`, the figure-saving logic shared
by the top-level plotting functions, and the delegation in
`plot_max_plan_and_vert`.

Python floats are idealised as exact arithmetic: `ℚ` where the code only
adds, multiplies, divides and compares (tick vectors, data reductions),
and `ℝ` where `np.pi` or trigonometric functions appear (transforms,
mesh vectors).  NumPy arrays become Lean lists; fallible code paths
(unbound locals, skipped saves) become `Option` / explicit effect values.
-/

namespace WradlibVis

/-! ### NumPy primitives shared by several functions -/

/-- Model of `np.linspace(a, b, num)` (with the default `endpoint=True`):
entry `i` is `a + (b - a) * i / (num - 1)`.  For `num = 1` the division by
zero yields `a` (matching NumPy's `[a]`), and `num = 0` gives `[]`. -/
def linspace {α : Type} [Field α] (a b : α) (num : ℕ) : List α :=
  (List.range num).map (fun i : ℕ => a + (b - a) * (i : α) / ((num : α) - 1))

/-- Model of `np.mod(x, d)` on floats for `d ≠ 0`: `x - d * ⌊x / d⌋`. -/
def npMod (x d : ℚ) : ℚ := x - d * (⌊x / d⌋ : ℤ)

/-- Model of Python's `int(q)`: truncation toward zero. -/
def pyInt (q : ℚ) : ℤ := if 0 ≤ q then ⌊q⌋ else -⌊-q⌋

/-- Model of `np.roll(l, shift)` on a 1-D array: entry `j` of the result is
entry `(j - shift) mod n` of the input, i.e. a left rotation by
`(-shift) mod n`. -/
def npRoll {α : Type} (shift : ℤ) (l : List α) : List α :=
  l.rotate ((-shift % (l.length : ℤ)).toNat)

/-- Model of `np.where(v >= x)[0][0]` (first index whose entry is `≥ x`),
meaningful whenever such an index exists. -/
def firstIdxGe {α : Type} [LinearOrder α] (v : List α) (x : α) : ℕ :=
  v.findIdx (fun t => decide (x ≤ t))

/-- Model of `np.where(v <= x)[0][-1]` (last index whose entry is `≤ x`),
meaningful whenever such an index exists. -/
def lastIdxLe {α : Type} [LinearOrder α] (v : List α) (x : α) : ℕ :=
  v.length - 1 - v.reverse.findIdx (fun t => decide (t ≤ x))

/-- Model of the Python slice `v[i:j]` (half-open, nonnegative bounds). -/
def pySlice {α : Type} (v : List α) (i j : ℕ) : List α :=
  (v.drop i).take (j - i)

/-! ### The north-up clockwise polar transform (`NorthPolarAxes`) -/

/-- `NorthPolarAxes.NorthPolarTransform.transform`, applied to one input
row `(t, r)`: `x = r * sin t`, `y = r * cos t` (vis.py lines 68-77; the
NumPy code applies this map to every row of the input array). -/
noncomputable def northPolarTransform (tr : ℝ × ℝ) : ℝ × ℝ :=
  (tr.2 * Real.sin tr.1, tr.2 * Real.cos tr.1)

/-- Model of `np.arctan2(y, x)`: the angle of the point `(x, y)` in
`(-π, π]`, i.e. the complex argument of `x + y*I`. -/
noncomputable def arctan2 (y x : ℝ) : ℝ := Complex.arg ⟨x, y⟩

/-- `NorthPolarAxes.InvertedNorthPolarTransform.transform`, applied to one
row `(x, y)`: returns `(theta, r)` with `theta = arctan2(y, x)` and
`r = sqrt (x*x + y*y)` (vis.py lines 84-90). -/
noncomputable def invertedNorthPolarTransform (xy : ℝ × ℝ) : ℝ × ℝ :=
  (arctan2 xy.2 xy.1, Real.sqrt (xy.1 * xy.1 + xy.2 * xy.2))

/-- C2: `NorthPolarTransform.transform` sends every row `(t, r)` to
`(r*sin t, r*cos t)`; consequently azimuth `t = 0` maps onto the positive
y-axis (north), `t = π/2` maps onto the positive x-axis (east), and
advancing `t` by a quarter turn rotates the image point clockwise by a
quarter turn, so increasing `t` rotates the image clockwise. -/
theorem northPolarTransform_spec (t r : ℝ) :
    northPolarTransform (t, r) = (r * Real.sin t, r * Real.cos t) ∧
    northPolarTransform (0, r) = (0, r) ∧
    northPolarTransform (Real.pi / 2, r) = (r, 0) ∧
    northPolarTransform (t + Real.pi / 2, r) =
      ((northPolarTransform (t, r)).2, -(northPolarTransform (t, r)).1) := by
  refine ⟨rfl, ?_, ?_, ?_⟩
  · simp [northPolarTransform]
  · simp [northPolarTransform]
  · simp [northPolarTransform, Real.sin_add, Real.cos_add]

/-- C4: the round trip through the code's advertised inverse fails.
`InvertedNorthPolarTransform.transform` computes `arctan2(y, x)`, which
inverts the standard east-counterclockwise polar map, not the north-up
clockwise forward map: at the input row `(t, r) = (0, 1)` the forward
transform yields `(0, 1)` and the inverse returns `(π/2, 1)`, and `π/2`
differs from `t = 0` by no multiple of `2π`. -/
theorem invertedNorthPolarTransform_roundtrip_bug :
    invertedNorthPolarTransform (northPolarTransform (0, 1)) = (Real.pi / 2, 1) ∧
    ∀ k : ℤ, Real.pi / 2 ≠ 0 + 2 * Real.pi * k := by
  constructor
  · have h0 : northPolarTransform ((0 : ℝ), (1 : ℝ)) = (0, 1) := by
      simp [northPolarTransform]
    rw [h0]
    have harg : arctan2 1 0 = Real.pi / 2 := by
      have : ((⟨0, 1⟩ : ℂ)) = Complex.I := rfl
      rw [arctan2, this, Complex.arg_I]
    have hsqrt : Real.sqrt ((0 : ℝ) * 0 + 1 * 1) = 1 := by
      norm_num
    simp [invertedNorthPolarTransform, harg, hsqrt]
  · intro k h
    have hpi := Real.pi_ne_zero
    have h4 : (4 : ℝ) * (k : ℝ) = 1 := by
      have h2 : Real.pi * 1 = Real.pi * (4 * (k : ℝ)) := by ring_nf; ring_nf at h; linarith
      have := mul_left_cancel₀ hpi h2
      linarith
    have h5 : ((4 * k : ℤ) : ℝ) = 1 := by push_cast; linarith
    have h6 : (4 * k : ℤ) = 1 := by exact_mod_cast h5
    omega

/-! ### Tick vectors (`get_tick_vector` and `cg_plot.get_tick_vector`) -/

/-- The fixed divisor list of the module-level `get_tick_vector`
(vis.py line 703). -/
def tickDivisors : List ℚ := [100, 50, 20, 10, 5, 2.5, 2, 1, 0.5, 0.25, 0.2]

/-- The fixed divisor list of `cg_plot.get_tick_vector` (vis.py line 1206);
it carries an extra leading `200.`. -/
def cgTickDivisors : List ℚ :=
  [200, 100, 50, 20, 10, 5, 2.5, 2, 1, 0.5, 0.25, 0.2]

/-- The `for div in ...: if cnt >= 5: break` search: the first divisor `d`
of the list with `x / d >= 5`, or `none` when the loop falls through. -/
def findDiv (x : ℚ) : List ℚ → Option ℚ
  | [] => none
  | d :: ds => if 5 ≤ x / d then some d else findDiv x ds

/-- Module-level `get_tick_vector(vrange, vres)` (vis.py lines 682-719).
`vres` is modelled as a list; the empty list is the falsy `not vres` case.
When no divisor satisfies `x/div >= 5` the locals `rem` and `cnt` stay
unbound and the final `np.linspace` raises `NameError`; that path is
modelled as `none`. -/
def get_tick_vector (vrange : ℚ × ℚ) (vres : List ℚ) : Option (List ℚ) :=
  let x := vrange.2 - vrange.1
  let cntRem : Option (ℚ × ℚ) :=
    if vres.isEmpty then
      (findDiv x tickDivisors).map (fun div => (x / div, npMod x div))
    else if 1 < vres.length then
      (findDiv x vres).map (fun div => (x / div, npMod x div))
    else
      some (x / vres.getD 0 0, npMod x (vres.getD 0 0))
  cntRem.map (fun cr =>
    linspace vrange.1 (vrange.2 - cr.2) (pyInt (cr.1 + 1)).toNat)

/-- Method `cg_plot.get_tick_vector(vrange, vres)` (vis.py lines
1185-1222): identical to the module-level function except for the divisor
list, which starts with `200.`. -/
def cg_plot.get_tick_vector (vrange : ℚ × ℚ) (vres : List ℚ) :
    Option (List ℚ) :=
  let x := vrange.2 - vrange.1
  let cntRem : Option (ℚ × ℚ) :=
    if vres.isEmpty then
      (findDiv x cgTickDivisors).map (fun div => (x / div, npMod x div))
    else if 1 < vres.length then
      (findDiv x vres).map (fun div => (x / div, npMod x div))
    else
      some (x / vres.getD 0 0, npMod x (vres.getD 0 0))
  cntRem.map (fun cr =>
    linspace vrange.1 (vrange.2 - cr.2) (pyInt (cr.1 + 1)).toNat)

theorem findDiv_eq_none (x : ℚ) (l : List ℚ) (h : ∀ d ∈ l, x / d < 5) :
    findDiv x l = none := by
  induction l with
  | nil => rfl
  | cons a t ih =>
    simp only [findDiv]
    rw [if_neg (not_le.mpr (h a (List.mem_cons_self a t)))]
    exact ih (fun d hd => h d (List.mem_cons_of_mem a hd))

theorem findDiv_ne_none (x d : ℚ) (l : List ℚ) (hmem : d ∈ l)
    (hd : 5 ≤ x / d) : findDiv x l ≠ none := by
  induction l with
  | nil => simp at hmem
  | cons a t ih =>
    simp only [findDiv]
    by_cases ha : 5 ≤ x / a
    · rw [if_pos ha]; simp
    · rw [if_neg ha]
      rcases List.mem_cons.mp hmem with rfl | hmem2
      · exact absurd hd ha
      · exact ih hmem2

theorem findDiv_append (x : ℚ) (pre rest : List ℚ)
    (h : ∀ d ∈ pre, x / d < 5) :
    findDiv x (pre ++ rest) = findDiv x rest := by
  induction pre with
  | nil => rfl
  | cons a t ih =>
    simp only [List.cons_append, findDiv]
    rw [if_neg (not_le.mpr (h a (List.mem_cons_self a t)))]
    exact ih (fun d hd => h d (List.mem_cons_of_mem a hd))

theorem linspace_length {α : Type} [Field α] (a b : α) (n : ℕ) :
    (linspace a b n).length = n := by
  rw [linspace, List.length_map, List.length_range]

theorem linspace_getD {α : Type} [Field α] (a b : α) (n i : ℕ)
    (h : i < n) :
    (linspace a b n).getD i 0 = a + (b - a) * (i : α) / ((n : α) - 1) := by
  rw [linspace, List.getD_eq_getElem?_getD, List.getElem?_map,
    List.getElem?_range h]
  rfl

/-- C3 (amended): for an empty `vres`, when `div` is the first element of
the fixed divisor list with `x/div >= 5` (for `x = vrange[1]-vrange[0]`),
`get_tick_vector` returns the evenly spaced vector from `vrange[0]` to
`vrange[1] - (x mod div)` whose first tick is `vrange[0]`, whose
consecutive ticks differ by `div`, and which has `⌊x/div⌋ + 1` points (the
float count `x/div + 1` is truncated to an integer by `np.linspace`, so
the claimed `x/div + 1` points only result when `div` divides `x`). -/
theorem get_tick_vector_spec (v0 v1 div : ℚ) (pre post : List ℚ)
    (hlist : tickDivisors = pre ++ div :: post)
    (hpre : ∀ d ∈ pre, (v1 - v0) / d < 5)
    (hdiv : 5 ≤ (v1 - v0) / div) :
    ∃ ticks, get_tick_vector (v0, v1) [] = some ticks ∧
      (ticks.length : ℤ) = ⌊(v1 - v0) / div⌋ + 1 ∧
      ticks.getD 0 0 = v0 ∧
      ticks.getD (ticks.length - 1) 0 = v1 - npMod (v1 - v0) div ∧
      ∀ i, i + 1 < ticks.length →
        ticks.getD (i + 1) 0 - ticks.getD i 0 = div := by
  have hdivpos : 0 < div := by
    have hmem : div ∈ tickDivisors := by
      rw [hlist]
      exact List.mem_append.mpr (Or.inr (List.mem_cons_self div post))
    exact (by norm_num [tickDivisors] : ∀ d ∈ tickDivisors, (0 : ℚ) < d)
      div hmem
  have hfind : findDiv (v1 - v0) tickDivisors = some div := by
    rw [hlist, findDiv_append (v1 - v0) pre _ hpre]
    simp only [findDiv]
    rw [if_pos hdiv]
  have hmain : get_tick_vector (v0, v1) [] =
      some (linspace v0 (v1 - npMod (v1 - v0) div)
        (pyInt ((v1 - v0) / div + 1)).toNat) := by
    simp only [get_tick_vector, List.isEmpty_nil, if_true, hfind,
      Option.map_some']
  set F : ℤ := ⌊(v1 - v0) / div⌋ with hFdef
  have hF5 : (5 : ℤ) ≤ F := Int.le_floor.mpr (by exact_mod_cast hdiv)
  have hpy : pyInt ((v1 - v0) / div + 1) = F + 1 := by
    rw [pyInt, if_pos (by linarith : (0 : ℚ) ≤ (v1 - v0) / div + 1),
      Int.floor_add_one]
  set n : ℕ := (pyInt ((v1 - v0) / div + 1)).toNat with hndef
  have hnz : (n : ℤ) = F + 1 := by
    rw [hndef, hpy, Int.toNat_of_nonneg (by omega)]
  have hnQ : (n : ℚ) - 1 = (F : ℚ) := by
    have h1 : ((n : ℤ) : ℚ) = ((F : ℚ) + 1) := by
      rw [hnz]; push_cast; ring
    push_cast at h1
    linarith
  have hFQpos : (0 : ℚ) < (F : ℚ) := by
    exact_mod_cast (by omega : (0 : ℤ) < F)
  have hFne : (F : ℚ) ≠ 0 := ne_of_gt hFQpos
  have hba : (v1 - npMod (v1 - v0) div) - v0 = div * (F : ℚ) := by
    rw [npMod, hFdef]
    ring
  have hentry : ∀ i, i < n →
      (linspace v0 (v1 - npMod (v1 - v0) div) n).getD i 0 = v0 + div * i := by
    intro i hi
    rw [linspace_getD _ _ _ _ hi, hba, hnQ]
    field_simp
    ring
  refine ⟨linspace v0 (v1 - npMod (v1 - v0) div) n, hmain, ?_, ?_, ?_, ?_⟩
  · rw [linspace_length]; exact hnz
  · have h0 : 0 < n := by omega
    rw [hentry 0 h0]
    simp
  · rw [linspace_length]
    have hlt : n - 1 < n := by omega
    rw [hentry (n - 1) hlt]
    have h1 : ((n - 1 : ℕ) : ℤ) = F := by omega
    have hcast : ((n - 1 : ℕ) : ℚ) = (F : ℚ) := by exact_mod_cast h1
    rw [hcast, npMod, hFdef]
    ring
  · intro i hi
    rw [linspace_length] at hi
    rw [hentry (i + 1) hi, hentry i (by omega)]
    push_cast
    ring

/-- C3 witness: at `vrange = (0, 30)` the selected divisor is `5` (the
earlier divisors `100, 50, 20, 10` all fail the `>= 5` test), so the ticks
run from `0` to `30` in steps of `5` with `7` points. -/
theorem get_tick_vector_spec_witness :
    (∀ d ∈ [(100 : ℚ), 50, 20, 10], (30 - 0 : ℚ) / d < 5) ∧
    5 ≤ (30 - 0 : ℚ) / 5 ∧
    ∃ ticks, get_tick_vector (0, 30) [] = some ticks ∧
      (ticks.length : ℤ) = ⌊(30 - 0 : ℚ) / 5⌋ + 1 ∧
      ticks.getD 0 0 = 0 ∧
      ticks.getD (ticks.length - 1) 0 = 30 - npMod (30 - 0) 5 ∧
      ∀ i, i + 1 < ticks.length →
        ticks.getD (i + 1) 0 - ticks.getD i 0 = 5 :=
  ⟨by norm_num, by norm_num,
   get_tick_vector_spec 0 30 5 [100, 50, 20, 10] [2.5, 2, 1, 0.5, 0.25, 0.2]
     rfl (by norm_num) (by norm_num)⟩

/-- C3 counterexample: at `vrange = (0, 5.5)` the selected divisor is `1`
(the claimed first divisor with `x/div >= 5`), but the returned vector has
`6` points, not the claimed `x/div + 1 = 6.5` points. -/
theorem get_tick_vector_count_cex :
    (∀ d ∈ [(100 : ℚ), 50, 20, 10, 5, 2.5, 2], (11 / 2 - 0 : ℚ) / d < 5) ∧
    5 ≤ (11 / 2 - 0 : ℚ) / 1 ∧
    (get_tick_vector (0, 11 / 2) []).map List.length = some 6 ∧
    (6 : ℚ) ≠ (11 / 2 - 0 : ℚ) / 1 + 1 := by
  refine ⟨by norm_num, by norm_num, ?_, by norm_num⟩
  have hfd : findDiv (11 / 2 - 0 : ℚ) tickDivisors = some 1 := by
    simp only [tickDivisors, findDiv]
    norm_num
  simp only [get_tick_vector, List.isEmpty_nil, if_true, hfd,
    Option.map_some']
  rw [linspace_length]
  norm_num [pyInt]
  decide

/-- C8: for an empty `vres`, `get_tick_vector` reaches the `NameError`
path (the locals `rem` and `cnt` never bound, modelled as `none`) if and
only if the span `x = vrange[1] - vrange[0]` is `< 1`; for `x >= 1` the
smallest divisor `0.2` satisfies `x / 0.2 >= 5` and the function returns
normally. -/
theorem get_tick_vector_none_iff (v0 v1 : ℚ) :
    get_tick_vector (v0, v1) [] = none ↔ v1 - v0 < 1 := by
  have hred : get_tick_vector (v0, v1) [] = none ↔
      findDiv (v1 - v0) tickDivisors = none := by
    simp [get_tick_vector]
  rw [hred]
  constructor
  · intro h
    by_contra hge
    push_neg at hge
    have hmem : (0.2 : ℚ) ∈ tickDivisors := by norm_num [tickDivisors]
    have hq : 5 ≤ (v1 - v0) / 0.2 := by
      rw [le_div_iff₀ (by norm_num)]
      linarith
    exact findDiv_ne_none (v1 - v0) 0.2 tickDivisors hmem hq h
  · intro hlt
    apply findDiv_eq_none
    intro d hd
    fin_cases hd <;> (rw [div_lt_iff₀ (by norm_num)]; linarith)

/-- C9 (amended): the method `cg_plot.get_tick_vector` and the
module-level `get_tick_vector` agree on the empty-`vres` path whenever the
span is below `1000`; beyond that the method's extra leading divisor
`200.` fires first and the results differ. -/
theorem cg_get_tick_vector_eq_of_small (v0 v1 : ℚ) (h : v1 - v0 < 1000) :
    cg_plot.get_tick_vector (v0, v1) [] = get_tick_vector (v0, v1) [] := by
  have hng : ¬ 5 ≤ (v1 - v0) / 200 := by
    rw [not_le, div_lt_iff₀ (by norm_num)]
    linarith
  have hfd : findDiv (v1 - v0) cgTickDivisors =
      findDiv (v1 - v0) tickDivisors := by
    show (if 5 ≤ (v1 - v0) / 200 then some 200
          else findDiv (v1 - v0) tickDivisors) =
        findDiv (v1 - v0) tickDivisors
    rw [if_neg hng]
  simp only [cg_plot.get_tick_vector, get_tick_vector, hfd]

/-- C9 witness: at `vrange = (0, 30)` the two tick routines agree. -/
theorem cg_get_tick_vector_eq_of_small_witness :
    (30 - (0 : ℚ) < 1000) ∧
    cg_plot.get_tick_vector (0, 30) [] = get_tick_vector (0, 30) [] :=
  ⟨by norm_num, cg_get_tick_vector_eq_of_small 0 30 (by norm_num)⟩

/-- C9 counterexample: at `vrange = (0, 1000)` the method picks divisor
`200` (6 ticks of step 200) while the module-level function picks `100`
(11 ticks of step 100), so the two implementations are not extensionally
equal on the empty-`vres` path. -/
theorem cg_get_tick_vector_cex :
    cg_plot.get_tick_vector (0, 1000) [] ≠ get_tick_vector (0, 1000) [] := by
  have hlen1 : (cg_plot.get_tick_vector (0, 1000) []).map List.length =
      some 6 := by
    have hfd : findDiv (1000 - 0 : ℚ) cgTickDivisors = some 200 := by
      simp only [cgTickDivisors, findDiv]
      norm_num
    simp only [cg_plot.get_tick_vector, List.isEmpty_nil, if_true, hfd,
      Option.map_some']
    rw [linspace_length]
    norm_num [pyInt]
    decide
  have hlen2 : (get_tick_vector (0, 1000) []).map List.length =
      some 11 := by
    have hfd : findDiv (1000 - 0 : ℚ) tickDivisors = some 100 := by
      simp only [tickDivisors, findDiv]
      norm_num
    simp only [get_tick_vector, List.isEmpty_nil, if_true, hfd,
      Option.map_some']
    rw [linspace_length]
    norm_num [pyInt]
    decide
  intro h
  rw [h, hlen2] at hlen1
  exact absurd (Option.some.inj hlen1) (by norm_num)

/-! ### Colormap discretization (`set_cmap`) -/

/-- A color produced by looking up index `idx` in the colormap `cmapName`
sampled with `lut` entries; colors are opaque tokens here. -/
structure MplColor where
  cmapName : String
  lut : ℕ
  idx : ℕ
deriving DecidableEq

/-- `pl.get_cmap(name, lut=lut)` applied to an index array
(`mycmap(np.arange(k))`): one color per index. -/
def getCmapColors (name : String) (lut : ℕ) (idxs : List ℕ) :
    List MplColor :=
  idxs.map (fun i => ⟨name, lut, i⟩)

/-- A colormap value: either a named (continuous) colormap string or an
`mpl.colors.ListedColormap` built from an explicit color list. -/
inductive Cmap where
  | named (name : String)
  | listed (colors : List MplColor)
deriving DecidableEq

/-- `mpl.colors.BoundaryNorm(boundaries, ncolors)`. -/
structure BoundaryNorm where
  boundaries : List ℝ
  ncolors : ℕ

/-- The colormap state (`self.cmap`, `self.norm`) of a `PolarPlot`
instance. -/
structure PolarPlot where
  cmap : Cmap
  norm : Option BoundaryNorm

/-- The colormap state (`self.cmap`, `self.norm`) of a `CartesianPlot`
instance. -/
structure CartesianPlot where
  cmap : Cmap
  norm : Option BoundaryNorm

/-- The colormap state set by `PolarPlot.__init__` (vis.py lines 138-139):
`self.cmap = 'jet'`, `self.norm = None`. -/
def PolarPlot.init : PolarPlot := ⟨Cmap.named "jet", none⟩

/-- `PolarPlot.set_cmap(cmap, classes)` (vis.py lines 141-149): with
`classes=None` only `self.cmap` is replaced; otherwise a `ListedColormap`
over `classes`-many LUT entries restricted to indices
`np.arange(len(classes)-1)` and a `BoundaryNorm(classes, mycmap.N)` are
stored. -/
def PolarPlot.set_cmap (s : PolarPlot) (cmap : String)
    (classes : Option (List ℝ)) : PolarPlot :=
  match classes with
  | none => { s with cmap := Cmap.named cmap }
  | some cs =>
      let mycmap := getCmapColors cmap cs.length (List.range (cs.length - 1))
      { s with cmap := Cmap.listed mycmap, norm := some ⟨cs, mycmap.length⟩ }

/-- `CartesianPlot.set_cmap(cmap, classes)` (vis.py lines 315-323);
textually the same logic as `PolarPlot.set_cmap`. -/
def CartesianPlot.set_cmap (s : CartesianPlot) (cmap : String)
    (classes : Option (List ℝ)) : CartesianPlot :=
  match classes with
  | none => { s with cmap := Cmap.named cmap }
  | some cs =>
      let mycmap := getCmapColors cmap cs.length (List.range (cs.length - 1))
      { s with cmap := Cmap.listed mycmap, norm := some ⟨cs, mycmap.length⟩ }

/-- C5: with a class-boundary list of length `n ≥ 2`, `PolarPlot.set_cmap`
and `CartesianPlot.set_cmap` install a discretized `ListedColormap` with
exactly `n - 1` colors together with a `BoundaryNorm` whose boundary
values are exactly the entries of `classes` (and whose color count is
`n - 1`); when `classes` is `None`, only `self.cmap` is replaced and
`self.norm` is left unchanged. -/
theorem set_cmap_spec (p : PolarPlot) (c : CartesianPlot) (name : String)
    (cs : List ℝ) (h : 2 ≤ cs.length) :
    (∃ colors, (p.set_cmap name (some cs)).cmap = Cmap.listed colors ∧
      colors.length = cs.length - 1) ∧
    ((p.set_cmap name (some cs)).norm).map BoundaryNorm.boundaries =
      some cs ∧
    ((p.set_cmap name (some cs)).norm).map BoundaryNorm.ncolors =
      some (cs.length - 1) ∧
    (∃ colors, (c.set_cmap name (some cs)).cmap = Cmap.listed colors ∧
      colors.length = cs.length - 1) ∧
    ((c.set_cmap name (some cs)).norm).map BoundaryNorm.boundaries =
      some cs ∧
    ((c.set_cmap name (some cs)).norm).map BoundaryNorm.ncolors =
      some (cs.length - 1) ∧
    (p.set_cmap name none).cmap = Cmap.named name ∧
    (p.set_cmap name none).norm = p.norm ∧
    (c.set_cmap name none).cmap = Cmap.named name ∧
    (c.set_cmap name none).norm = c.norm := by
  refine ⟨⟨_, rfl, ?_⟩, ?_, ?_, ⟨_, rfl, ?_⟩, ?_, ?_, rfl, rfl, rfl, rfl⟩ <;>
    simp [PolarPlot.set_cmap, CartesianPlot.set_cmap, getCmapColors]

/-- C5 witness: concrete evaluation with classes `[0, 1, 2]` (length 3):
boundaries `[0, 1, 2]` and `2` colors. -/
theorem set_cmap_spec_witness :
    2 ≤ ([(0 : ℝ), 1, 2]).length ∧
    ((PolarPlot.init.set_cmap "spectral" (some [0, 1, 2])).norm).map
      BoundaryNorm.boundaries = some [0, 1, 2] ∧
    ((PolarPlot.init.set_cmap "spectral" (some [0, 1, 2])).norm).map
      BoundaryNorm.ncolors = some 2 := by
  have h : (2 : ℕ) ≤ ([(0 : ℝ), 1, 2]).length := by norm_num
  have hs := set_cmap_spec PolarPlot.init ⟨Cmap.named "jet", none⟩
    "spectral" [0, 1, 2] h
  exact ⟨h, hs.2.1, by simpa using hs.2.2.1⟩

/-! ### Mesh arguments of `polar_plot` and `polar_plot2` -/

/-- The argument tuple of the `pcolormesh` call that renders a polar
dataset: angle vector, radius vector, cell data, colormap and norm. -/
structure PolarMeshCall where
  theta : List ℝ
  r : List ℝ
  data : List (List ℝ)
  cmap : Cmap
  norm : Option BoundaryNorm

/-- `PolarPlot.plot(data, R, theta0)` (vis.py lines 152-162): builds
`theta = linspace(0, 2π, n_theta+1)`, `r = linspace(0, R, n_r+1)`,
transposes the data and rolls it by `theta0` along the azimuth axis, and
passes them to `pcolormesh` together with the stored `cmap`/`norm`. -/
noncomputable def PolarPlot.plot (s : PolarPlot) (data : List (List ℝ))
    (R : ℝ) (theta0 : ℤ) : PolarMeshCall :=
  let n_theta := data.length
  let n_r := (data.headD []).length
  let theta := linspace 0 (2 * Real.pi) (n_theta + 1)
  let r := linspace 0 R (n_r + 1)
  let d := (data.transpose).map (npRoll theta0)
  ⟨theta, r, d, s.cmap, s.norm⟩

/-- The `pcolormesh` arguments produced by the class-based `polar_plot2`
(vis.py lines 184-203): instantiate `PolarPlot`, call `set_cmap`, then
`plot`. -/
noncomputable def polar_plot2_mesh (data : List (List ℝ)) (R : ℝ)
    (theta0 : ℤ) (colormap : String) (classes : Option (List ℝ)) :
    PolarMeshCall :=
  (PolarPlot.init.set_cmap colormap classes).plot data R theta0

/-- The `pcolormesh` arguments produced inline by `polar_plot`
(vis.py lines 246-283): same vectors and data; with `classes` given, the
same `ListedColormap`/`BoundaryNorm` construction as `set_cmap`; with
`classes=None`, the named colormap and no norm argument. -/
noncomputable def polar_plot_mesh (data : List (List ℝ)) (R : ℝ)
    (theta0 : ℤ) (colormap : String) (classes : Option (List ℝ)) :
    PolarMeshCall :=
  let n_theta := data.length
  let n_r := (data.headD []).length
  let theta := linspace 0 (2 * Real.pi) (n_theta + 1)
  let r := linspace 0 R (n_r + 1)
  let d := (data.transpose).map (npRoll theta0)
  match classes with
  | none => ⟨theta, r, d, Cmap.named colormap, none⟩
  | some cs =>
      let mycmap := getCmapColors colormap cs.length (List.range (cs.length - 1))
      ⟨theta, r, d, Cmap.listed mycmap, some ⟨cs, mycmap.length⟩⟩

/-- C6: for every data array and every `R`, `theta0`, colormap and class
arguments, the class-based `polar_plot2` and the inline `polar_plot` pass
identical arguments to the mesh-rendering call: the same
`theta = linspace(0, 2π, n_theta+1)`, the same `r = linspace(0, R, n_r+1)`,
the same data array (transposed then rolled by `theta0` along the azimuth
axis), and the same colormap/normalization. -/
theorem polar_plot2_mesh_eq (data : List (List ℝ)) (R : ℝ) (theta0 : ℤ)
    (colormap : String) (classes : Option (List ℝ)) :
    polar_plot2_mesh data R theta0 colormap classes =
      polar_plot_mesh data R theta0 colormap classes ∧
    (polar_plot_mesh data R theta0 colormap classes).theta =
      linspace 0 (2 * Real.pi) (data.length + 1) ∧
    (polar_plot_mesh data R theta0 colormap classes).r =
      linspace 0 R ((data.headD []).length + 1) ∧
    (polar_plot_mesh data R theta0 colormap classes).data =
      (data.transpose).map (npRoll theta0) := by
  refine ⟨?_, ?_, ?_, ?_⟩ <;> cases classes <;> rfl

/-! ### `rhi_plot`: vectors and range restriction -/

theorem getD_map {α β : Type} (f : α → β) (l : List α) (i : ℕ) (d : α) :
    (l.map f).getD i (f d) = f (l.getD i d) := by
  rw [List.getD_eq_getElem?_getD, List.getD_eq_getElem?_getD,
    List.getElem?_map]
  cases l[i]? <;> rfl

theorem getD_reverse {α : Type} (v : List α) (i : ℕ) (d : α)
    (h : i < v.length) :
    v.reverse.getD i d = v.getD (v.length - 1 - i) d := by
  rw [List.getD_eq_getElem?_getD, List.getD_eq_getElem?_getD,
    List.getElem?_eq_getElem (by simpa using h),
    List.getElem?_eq_getElem (by omega : v.length - 1 - i < v.length)]
  simp [List.getElem_reverse]

theorem findIdx_eq_of {α : Type} (p : α → Bool) (d : α) :
    ∀ (l : List α) (i : ℕ), i < l.length → p (l.getD i d) = true →
      (∀ k, k < i → p (l.getD k d) = false) → l.findIdx p = i := by
  intro l
  induction l with
  | nil => intro i hi _ _; simp at hi
  | cons a t ih =>
    intro i hi hp hk
    cases i with
    | zero =>
      rw [List.findIdx_cons]
      rw [show p a = true from by simpa using hp]
      rfl
    | succ j =>
      rw [List.findIdx_cons]
      rw [show p a = false from by simpa using hk 0 (Nat.succ_pos j)]
      have hrec := ih j (by simpa using hi) (by simpa using hp)
        (fun k hkj => by simpa using hk (k + 1) (by omega))
      simpa using hrec

theorem firstIdxGe_eq {α : Type} [LinearOrder α] (v : List α) (x d : α)
    (i : ℕ) (hi : i < v.length) (hge : x ≤ v.getD i d)
    (hlt : ∀ k, k < i → v.getD k d < x) :
    firstIdxGe v x = i := by
  apply findIdx_eq_of _ d _ _ hi
  · simpa using hge
  · intro k hk
    simpa using not_le.mpr (hlt k hk)

theorem lastIdxLe_eq {α : Type} [LinearOrder α] (v : List α) (x d : α)
    (j : ℕ) (hj : j < v.length) (hle : v.getD j d ≤ x)
    (hgt : ∀ k, j < k → k < v.length → ¬ (v.getD k d ≤ x)) :
    lastIdxLe v x = j := by
  have hrev : v.reverse.findIdx (fun t => decide (t ≤ x)) =
      v.length - 1 - j := by
    apply findIdx_eq_of _ d
    · simpa using (by omega : v.length - 1 - j < v.length)
    · rw [getD_reverse _ _ _ (by omega)]
      rw [show v.length - 1 - (v.length - 1 - j) = j from by omega]
      simpa using hle
    · intro k hk
      rw [getD_reverse _ _ _ (by omega : k < v.length)]
      have hmj : j < v.length - 1 - k := by omega
      have hml : v.length - 1 - k < v.length := by omega
      simpa using hgt _ hmj hml
  rw [lastIdxLe, hrev]
  omega

/-- The azimuth vector of `rhi_plot` in degrees:
`theta = np.linspace(0, np.pi/2, n_theta)` followed by
`theta = theta * 180. / np.pi` (vis.py lines 972, 974). -/
noncomputable def rhiThetaDeg (n_theta : ℕ) : List ℝ :=
  (linspace 0 (Real.pi / 2) n_theta).map (fun t => t * 180 / Real.pi)

theorem rhiThetaDeg_length (n : ℕ) : (rhiThetaDeg n).length = n := by
  rw [rhiThetaDeg, List.length_map, linspace_length]

/-- The arrays handed to `np.meshgrid`/`pcolormesh` by `rhi_plot`. -/
structure RhiMeshCall where
  theta : List ℝ
  r : List ℝ
  data : List (List ℝ)

/-- The vector setup and range restriction of `rhi_plot` (vis.py lines
925, 971-990, 1002): `theta` in degrees, `r = np.linspace(0, R[2], n_r)`
(`R2` stands for the data-max-range entry `R[2]`), data transposed, then
all three restricted by the half-open Python slices
`[ind_start : ind_stop]` where `ind_start` is the first index with value
`≥` the lower range bound and `ind_stop` the last index with value `≤`
the upper range bound. -/
noncomputable def rhi_mesh (data : List (List ℝ)) (R2 : ℝ)
    (thetaRange radRange : ℝ × ℝ) : RhiMeshCall :=
  let n_theta := data.length
  let n_r := (data.headD []).length
  let theta := rhiThetaDeg n_theta
  let r := linspace 0 R2 n_r
  let dataT := data.transpose
  let ind_start1 := firstIdxGe theta thetaRange.1
  let ind_stop1 := lastIdxLe theta thetaRange.2
  let ind_start2 := firstIdxGe r radRange.1
  let ind_stop2 := lastIdxLe r radRange.2
  ⟨pySlice theta ind_start1 ind_stop1,
   pySlice r ind_start2 ind_stop2,
   (pySlice dataT ind_start2 ind_stop2).map
     (fun row => pySlice row ind_start1 ind_stop1)⟩

/-- C7 (amended): for data of shape `(n_theta, n_r)` with
`n_theta, n_r ≥ 2`, `rhi_plot` assigns the `i`-th azimuth slice the angle
`90*i/(n_theta-1)` degrees and the `j`-th range bin the range
`R[2]*j/(n_r-1)`; it then restricts `theta`, `r` and the transposed data
to the half-open index ranges `[i1, j1)` and `[i2, j2)`, where `i1`/`i2`
are the first indices with value `≥` the lower range bound and `j1`/`j2`
the last indices with value `≤` the upper range bound — the element at
the last in-range index itself is dropped by the exclusive Python slice,
so the kept indices are not all the in-range indices. -/
theorem rhi_mesh_spec (data : List (List ℝ)) (R2 lo1 hi1 lo2 hi2 : ℝ)
    (i1 j1 i2 j2 : ℕ)
    (hnθ : 2 ≤ data.length)
    (hnr : 2 ≤ (data.headD []).length)
    (hi1a : i1 < data.length)
    (hi1b : lo1 ≤ (rhiThetaDeg data.length).getD i1 0)
    (hi1c : ∀ k, k < i1 → (rhiThetaDeg data.length).getD k 0 < lo1)
    (hj1a : j1 < data.length)
    (hj1b : (rhiThetaDeg data.length).getD j1 0 ≤ hi1)
    (hj1c : ∀ k, j1 < k → k < data.length →
      ¬ ((rhiThetaDeg data.length).getD k 0 ≤ hi1))
    (hi2a : i2 < (data.headD []).length)
    (hi2b : lo2 ≤ (linspace 0 R2 (data.headD []).length).getD i2 0)
    (hi2c : ∀ k, k < i2 →
      (linspace 0 R2 (data.headD []).length).getD k 0 < lo2)
    (hj2a : j2 < (data.headD []).length)
    (hj2b : (linspace 0 R2 (data.headD []).length).getD j2 0 ≤ hi2)
    (hj2c : ∀ k, j2 < k → k < (data.headD []).length →
      ¬ ((linspace 0 R2 (data.headD []).length).getD k 0 ≤ hi2)) :
    (∀ i, i < data.length → (rhiThetaDeg data.length).getD i 0 =
      90 * i / ((data.length : ℝ) - 1)) ∧
    (∀ j, j < (data.headD []).length →
      (linspace 0 R2 (data.headD []).length).getD j 0 =
        R2 * j / (((data.headD []).length : ℝ) - 1)) ∧
    rhi_mesh data R2 (lo1, hi1) (lo2, hi2) =
      ⟨pySlice (rhiThetaDeg data.length) i1 j1,
       pySlice (linspace 0 R2 (data.headD []).length) i2 j2,
       (pySlice data.transpose i2 j2).map
         (fun row => pySlice row i1 j1)⟩ := by
  have hpi := Real.pi_ne_zero
  refine ⟨?_, ?_, ?_⟩
  · intro i hi
    have h2n : (2 : ℝ) ≤ (data.length : ℝ) := by exact_mod_cast hnθ
    have hn1 : ((data.length : ℝ)) - 1 ≠ 0 :=
      ne_of_gt (by linarith : (0 : ℝ) < (data.length : ℝ) - 1)
    rw [rhiThetaDeg]
    rw [show (0 : ℝ) = (fun t : ℝ => t * 180 / Real.pi) 0 from by simp]
    rw [getD_map, linspace_getD _ _ _ _ hi]
    field_simp
    ring
  · intro j hj
    rw [linspace_getD _ _ _ _ hj]
    ring
  · have h1 : firstIdxGe (rhiThetaDeg data.length) lo1 = i1 :=
      firstIdxGe_eq _ _ 0 i1 (by rwa [rhiThetaDeg_length]) hi1b hi1c
    have h2 : lastIdxLe (rhiThetaDeg data.length) hi1 = j1 :=
      lastIdxLe_eq _ _ 0 j1 (by rwa [rhiThetaDeg_length]) hj1b
        (fun k hk hkl => hj1c k hk (by rwa [rhiThetaDeg_length] at hkl))
    have h3 : firstIdxGe (linspace 0 R2 (data.headD []).length) lo2 = i2 :=
      firstIdxGe_eq _ _ 0 i2 (by rwa [linspace_length]) hi2b hi2c
    have h4 : lastIdxLe (linspace 0 R2 (data.headD []).length) hi2 = j2 :=
      lastIdxLe_eq _ _ 0 j2 (by rwa [linspace_length]) hj2b
        (fun k hk hkl => hj2c k hk (by rwa [linspace_length] at hkl))
    simp only [rhi_mesh, h1, h2, h3, h4]

theorem rhiThetaDeg_three : rhiThetaDeg 3 = [0, 45, 90] := by
  have hpi := Real.pi_ne_zero
  rw [rhiThetaDeg, linspace, show List.range 3 = [0, 1, 2] from rfl]
  simp only [List.map_cons, List.map_nil, List.cons.injEq, and_true]
  norm_num
  refine ⟨?_, ?_⟩ <;> (field_simp; ring)

theorem linspace_two_two : linspace (0 : ℝ) 2 2 = [0, 2] := by
  rw [linspace, show List.range 2 = [0, 1] from rfl]
  simp only [List.map_cons, List.map_nil, List.cons.injEq, and_true]
  norm_num

/-- C7 witness: for the `3 × 2` array `[[1,2],[3,4],[5,6]]` with
`R[2] = 2` and the default ranges `theta_range = [0, 90]`,
`rad_range = [0, 2]`, the first/last in-range indices are `0`/`2` for
`theta` and `0`/`1` for `r`, and the mesh is the corresponding half-open
slices. -/
theorem rhi_mesh_spec_witness :
    2 ≤ ([[(1 : ℝ), 2], [3, 4], [5, 6]]).length ∧
    rhi_mesh [[(1 : ℝ), 2], [3, 4], [5, 6]] 2 (0, 90) (0, 2) =
      ⟨pySlice (rhiThetaDeg 3) 0 2, pySlice (linspace 0 2 2) 0 1,
       (pySlice ([[(1 : ℝ), 2], [3, 4], [5, 6]].transpose) 0 1).map
         (fun row => pySlice row 0 2)⟩ := by
  have hθ := rhiThetaDeg_three
  have hr := linspace_two_two
  have h := rhi_mesh_spec [[(1 : ℝ), 2], [3, 4], [5, 6]] 2 0 90 0 2 0 2 0 1
    (by norm_num) (by norm_num)
    (by norm_num)
    (by norm_num [hθ])
    (fun k hk => absurd hk (Nat.not_lt_zero k))
    (by norm_num)
    (by norm_num [hθ])
    (by intro k hk1 hk2; norm_num at hk2; exact absurd hk1 (by omega))
    (by norm_num)
    (by norm_num [hr])
    (fun k hk => absurd hk (Nat.not_lt_zero k))
    (by norm_num)
    (by norm_num [hr])
    (by intro k hk1 hk2; norm_num at hk2; exact absurd hk1 (by omega))
  exact ⟨by norm_num, h.2.2⟩

/-- C7 counterexample: with the `3 × 2` array `[[1,2],[3,4],[5,6]]` and
the default ranges, every one of the three azimuth angles `0, 45, 90`
lies inside `theta_range = [0, 90]`, yet the meshed `theta` is `[0, 45]`:
the code does not restrict to all indices with in-range values, it drops
the last one. -/
theorem rhi_mesh_restrict_cex :
    (rhi_mesh [[(1 : ℝ), 2], [3, 4], [5, 6]] 2 (0, 90) (0, 2)).theta =
      [0, 45] ∧
    rhiThetaDeg 3 = [0, 45, 90] ∧
    (∀ t ∈ rhiThetaDeg 3, 0 ≤ t ∧ t ≤ 90) ∧
    ([(0 : ℝ), 45] ≠ [0, 45, 90]) := by
  have hθ := rhiThetaDeg_three
  have hr := linspace_two_two
  have hf1 : firstIdxGe ([(0 : ℝ), 45, 90]) 0 = 0 :=
    firstIdxGe_eq _ _ 0 0 (by norm_num) (by norm_num)
      (fun k hk => absurd hk (Nat.not_lt_zero k))
  have hl1 : lastIdxLe ([(0 : ℝ), 45, 90]) 90 = 2 :=
    lastIdxLe_eq _ _ 0 2 (by norm_num) (by norm_num)
      (by intro k hk1 hk2; norm_num at hk2; exact absurd hk1 (by omega))
  have hf2 : firstIdxGe ([(0 : ℝ), 2]) 0 = 0 :=
    firstIdxGe_eq _ _ 0 0 (by norm_num) (by norm_num)
      (fun k hk => absurd hk (Nat.not_lt_zero k))
  have hl2 : lastIdxLe ([(0 : ℝ), 2]) 2 = 1 :=
    lastIdxLe_eq _ _ 0 1 (by norm_num) (by norm_num)
      (by intro k hk1 hk2; norm_num at hk2; exact absurd hk1 (by omega))
  refine ⟨?_, hθ, ?_, ?_⟩
  · simp only [rhi_mesh]
    norm_num [hθ, hr, hf1, hl1, hf2, hl2, pySlice]
  · rw [hθ]
    intro t ht
    fin_cases ht <;> norm_num
  · intro h
    have := congrArg List.length h
    simp at this

/-! ### Figure saving: the `saveto` logic -/

/-- POSIX `os.path.dirname` on a character list: take everything up to and
including the last `/`; a nonempty head that is not all slashes has its
trailing slashes stripped. -/
def dirnameList (l : List Char) : List Char :=
  let j := l.reverse.findIdx (fun c => c == '/')
  let head := l.take (l.length - j)
  if head ≠ [] ∧ head.any (fun c => c != '/') then
    (head.reverse.dropWhile (fun c => c == '/')).reverse
  else head

/-- `os.path.dirname` on strings. -/
def dirname (p : String) : String := ⟨dirnameList p.toList⟩

/-- The observable file/screen effect of a plotting call. -/
inductive FigOutput where
  | saved (path : String)
  | screen
  | nothing
deriving DecidableEq

/-- The `saveto` disposal of `polar_plot` (vis.py lines 288-298): empty
`saveto` shows the figure; otherwise `pl.savefig(saveto)` runs only when
`path.exists(path.dirname(saveto))` or the dirname is empty, and is
silently skipped otherwise.  `fsExists` is the filesystem oracle. -/
def polar_plot_output (saveto : String) (fsExists : String → Bool) :
    FigOutput :=
  if saveto = "" then FigOutput.screen
  else if fsExists (dirname saveto) = true ∨ dirname saveto = "" then
    FigOutput.saved saveto
  else FigOutput.nothing

/-- The `saveto` disposal of `cartesian_plot` (vis.py lines 398-408),
textually identical to the one in `polar_plot`. -/
def cartesian_plot_output (saveto : String) (fsExists : String → Bool) :
    FigOutput :=
  if saveto = "" then FigOutput.screen
  else if fsExists (dirname saveto) = true ∨ dirname saveto = "" then
    FigOutput.saved saveto
  else FigOutput.nothing

/-- The `saveto` disposal of `rhi_plot` (vis.py lines 1019-1025): nothing
is ever shown; with nonempty `saveto` the same guarded `savefig` runs,
and the function returns `fig, pl` in every case. -/
def rhi_plot_output (saveto : String) (fsExists : String → Bool) :
    FigOutput :=
  if saveto ≠ "" then
    if fsExists (dirname saveto) = true ∨ dirname saveto = "" then
      FigOutput.saved saveto
    else FigOutput.nothing
  else FigOutput.nothing

/-- The observable behaviour of `plot_plan_and_vert` (vis.py lines
2206-2294): the three `contourf` argument tuples (plan view `x, y, dataxy`;
upper profile `x, z, datazx.transpose()`; right profile `z, y, datazy`),
the colorbar label `"(unit)"`, the title, and the `saveto` disposal. -/
structure PlanVertRun where
  contourXY : List ℚ × List ℚ × List (List ℚ)
  contourZX : List ℚ × List ℚ × List (List ℚ)
  contourZY : List ℚ × List ℚ × List (List ℚ)
  cbLabel : String
  title : String
  output : FigOutput
deriving DecidableEq

/-- `plot_plan_and_vert(x, y, z, dataxy, datazx, datazy, unit, title,
saveto)` (vis.py lines 2206-2294). -/
def plot_plan_and_vert (x y z : List ℚ) (dataxy datazx datazy : List (List ℚ))
    (unit title saveto : String) (fsExists : String → Bool) : PlanVertRun :=
  ⟨(x, y, dataxy),
   (x, z, datazx.transpose),
   (z, y, datazy),
   "(" ++ unit ++ ")",
   title,
   if saveto = "" then FigOutput.screen
   else if fsExists (dirname saveto) = true ∨ dirname saveto = "" then
     FigOutput.saved saveto
   else FigOutput.nothing⟩

/-- The `saveto` disposal of `plot_tseries` (vis.py lines 2303-2346): when
an axes object is passed (`ax` not `None`) the function returns the axes
before the show/save block; otherwise the standard disposal runs. -/
def plot_tseries_output (axGiven : Bool) (saveto : String)
    (fsExists : String → Bool) : FigOutput :=
  if axGiven then FigOutput.nothing
  else if saveto = "" then FigOutput.screen
  else if fsExists (dirname saveto) = true ∨ dirname saveto = "" then
    FigOutput.saved saveto
  else FigOutput.nothing

/-- The guard of the save branch:
`path.exists(path.dirname(saveto)) or path.dirname(saveto)==\'\'`. -/
def saveCond (saveto : String) (fsExists : String → Bool) : Prop :=
  fsExists (dirname saveto) = true ∨ dirname saveto = ""

instance (saveto : String) (fsExists : String → Bool) :
    Decidable (saveCond saveto fsExists) := by
  unfold saveCond
  infer_instance

/-- C1 (amended): for each of `polar_plot`, `cartesian_plot`, `rhi_plot`,
`plot_plan_and_vert` and `plot_tseries`: with nonempty `saveto` the figure
is written to `saveto` iff the directory component of `saveto` exists or
is the empty string, and when the directory does not exist nothing is
written or shown and the call still returns normally (the effect functions
are total).  With empty `saveto` the figure is displayed, except in
`rhi_plot`, which only returns the figure.  For `plot_tseries` all of this
holds only in the `ax=None` case: when an axes object is passed the
function returns it before the save logic runs. -/
theorem saveto_output_spec (saveto : String) (fsExists : String → Bool) :
    (saveto ≠ "" →
      (polar_plot_output saveto fsExists = FigOutput.saved saveto ↔
        saveCond saveto fsExists) ∧
      (¬ saveCond saveto fsExists →
        polar_plot_output saveto fsExists = FigOutput.nothing) ∧
      (cartesian_plot_output saveto fsExists = FigOutput.saved saveto ↔
        saveCond saveto fsExists) ∧
      (¬ saveCond saveto fsExists →
        cartesian_plot_output saveto fsExists = FigOutput.nothing) ∧
      (rhi_plot_output saveto fsExists = FigOutput.saved saveto ↔
        saveCond saveto fsExists) ∧
      (¬ saveCond saveto fsExists →
        rhi_plot_output saveto fsExists = FigOutput.nothing) ∧
      (∀ x y z dxy dzx dzy u ti,
        ((plot_plan_and_vert x y z dxy dzx dzy u ti saveto fsExists).output =
            FigOutput.saved saveto ↔ saveCond saveto fsExists) ∧
        (¬ saveCond saveto fsExists →
          (plot_plan_and_vert x y z dxy dzx dzy u ti saveto fsExists).output =
            FigOutput.nothing)) ∧
      (plot_tseries_output false saveto fsExists = FigOutput.saved saveto ↔
        saveCond saveto fsExists) ∧
      (¬ saveCond saveto fsExists →
        plot_tseries_output false saveto fsExists = FigOutput.nothing)) ∧
    polar_plot_output "" fsExists = FigOutput.screen ∧
    cartesian_plot_output "" fsExists = FigOutput.screen ∧
    rhi_plot_output "" fsExists = FigOutput.nothing ∧
    (∀ x y z dxy dzx dzy u ti,
      (plot_plan_and_vert x y z dxy dzx dzy u ti "" fsExists).output =
        FigOutput.screen) ∧
    plot_tseries_output false "" fsExists = FigOutput.screen := by
  constructor
  · intro hne
    by_cases hc : saveCond saveto fsExists
    · rcases hc with hA | hB
      · simp [polar_plot_output, cartesian_plot_output, rhi_plot_output,
          plot_plan_and_vert, plot_tseries_output, saveCond, hne, hA]
      · simp [polar_plot_output, cartesian_plot_output, rhi_plot_output,
          plot_plan_and_vert, plot_tseries_output, saveCond, hne, hB]
    · rw [saveCond] at hc
      push_neg at hc
      obtain ⟨h1, h2⟩ := hc
      simp only [Bool.not_eq_true] at h1
      simp [polar_plot_output, cartesian_plot_output, rhi_plot_output,
        plot_plan_and_vert, plot_tseries_output, saveCond, hne, h1, h2]
  · simp [polar_plot_output, cartesian_plot_output, rhi_plot_output,
      plot_plan_and_vert, plot_tseries_output]

/-- C1 witness: `saveto = "out/f.png"` with a filesystem containing the
directory `"out"`: the save condition holds and the three single-result
functions all save. -/
theorem saveto_output_spec_witness :
    ("out/f.png" : String) ≠ "" ∧
    polar_plot_output "out/f.png" (fun d => d == "out") =
      FigOutput.saved "out/f.png" ∧
    rhi_plot_output "out/f.png" (fun d => d == "out") =
      FigOutput.saved "out/f.png" ∧
    plot_tseries_output false "out/f.png" (fun d => d == "out") =
      FigOutput.saved "out/f.png" := by
  have hne : ("out/f.png" : String) ≠ "" := by decide
  have h := (saveto_output_spec "out/f.png" (fun d => d == "out")).1 hne
  have hc : saveCond "out/f.png" (fun d => d == "out") :=
    Or.inl (by decide)
  exact ⟨hne, h.1.mpr hc, h.2.2.2.2.1.mpr hc, h.2.2.2.2.2.2.2.1.mpr hc⟩

/-- C1 counterexample: `plot_tseries` called with an axes object, a
nonempty `saveto` and an existing directory still writes nothing — it
returns the axes before the save logic, contradicting the claimed
"written iff the directory exists" for `plot_tseries`. -/
theorem plot_tseries_ax_save_cex :
    plot_tseries_output true "out/f.png" (fun _ => true) =
      FigOutput.nothing ∧
    dirname "out/f.png" = "out" ∧
    ("out/f.png" : String) ≠ "" ∧
    (fun _ : String => true) (dirname "out/f.png") = true := by
  exact ⟨rfl, by decide, by decide, rfl⟩

/-! ### `plot_max_plan_and_vert`: delegation and axis maxima -/

/-- `np.max` over a 1-D array (only ever applied to nonempty rows). -/
def npAmax (l : List ℚ) : ℚ :=
  match l with
  | [] => 0
  | a :: t => t.foldl max a

/-- `np.max(a, axis=2)` on a 3-D array: per `(i, j)` the maximum over the
innermost axis. -/
def npMaxAxis2 (a : List (List (List ℚ))) : List (List ℚ) :=
  a.map (fun plane => plane.map npAmax)

/-- Elementwise maximum of two 2-D arrays. -/
def maxPlane (p q : List (List ℚ)) : List (List ℚ) :=
  List.zipWith (List.zipWith max) p q

/-- `np.max(a, axis=0)` on a 3-D array: elementwise reduction of the
planes. -/
def npMaxAxis0 (a : List (List (List ℚ))) : List (List ℚ) :=
  match a with
  | [] => []
  | p :: ps => ps.foldl maxPlane p

/-- Reduction of a 2-D plane over its row axis: elementwise maximum of
the rows. -/
def reduceRowsMax (m : List (List ℚ)) : List ℚ :=
  match m with
  | [] => []
  | r :: rs => rs.foldl (List.zipWith max) r

/-- `np.max(a, axis=1)` on a 3-D array: within each plane, elementwise
reduction of the rows. -/
def npMaxAxis1 (a : List (List (List ℚ))) : List (List ℚ) :=
  a.map reduceRowsMax

/-- `plot_max_plan_and_vert(x, y, z, data, unit, title, saveto)`
(vis.py lines 2297-2300). -/
def plot_max_plan_and_vert (x y z : List ℚ) (data : List (List (List ℚ)))
    (unit title saveto : String) (fsExists : String → Bool) : PlanVertRun :=
  plot_plan_and_vert x y z (npMaxAxis2 data) (npMaxAxis0 data)
    (npMaxAxis1 data) unit title saveto fsExists

/-- `v` is the maximum of the list `l`: it belongs to `l` and bounds every
entry. -/
def isMaxOf (l : List ℚ) (v : ℚ) : Prop := v ∈ l ∧ ∀ b ∈ l, b ≤ v

/-- A rectangular 2-D array of shape `(n1, n2)`, described through
indexing. -/
def Rect2 (m : List (List ℚ)) (n1 n2 : ℕ) : Prop :=
  m.length = n1 ∧ ∀ j, j < n1 → (m.getD j []).length = n2

/-- A rectangular 3-D array of shape `(n0, n1, n2)`. -/
def Rect3 (a : List (List (List ℚ))) (n0 n1 n2 : ℕ) : Prop :=
  a.length = n0 ∧ ∀ i, i < n0 → Rect2 (a.getD i []) n1 n2

theorem getD_map_of {α β : Type} (f : α → β) (d1 : α) (d2 : β)
    (hf : f d1 = d2) (l : List α) (i : ℕ) :
    (l.map f).getD i d2 = f (l.getD i d1) := by
  rw [← hf]
  exact getD_map f l i d1

theorem foldl_max_isMax (t : List ℚ) : ∀ a : ℚ,
    isMaxOf (a :: t) (t.foldl max a) := by
  induction t with
  | nil =>
    intro a
    exact ⟨List.mem_singleton.mpr rfl, by simp⟩
  | cons b s ih =>
    intro a
    have h := ih (max a b)
    refine ⟨?_, ?_⟩
    · show s.foldl max (max a b) ∈ a :: b :: s
      rcases List.mem_cons.mp h.1 with heq | hmem
      · rw [heq]
        rcases max_choice a b with h1 | h1 <;> rw [h1] <;> simp
      · exact List.mem_cons_of_mem _ (List.mem_cons_of_mem _ hmem)
    · intro c hc
      rcases List.mem_cons.mp hc with heq1 | hc2
      · rw [heq1]
        exact le_trans (le_max_left a b) (h.2 _ (List.mem_cons_self _ _))
      · rcases List.mem_cons.mp hc2 with heq2 | hc3
        · rw [heq2]
          exact le_trans (le_max_right a b) (h.2 _ (List.mem_cons_self _ _))
        · exact h.2 _ (List.mem_cons_of_mem _ hc3)

theorem npAmax_isMax (l : List ℚ) (h : l ≠ []) : isMaxOf l (npAmax l) := by
  cases l with
  | nil => exact absurd rfl h
  | cons a t => exact foldl_max_isMax t a

theorem getD_zipWith {α : Type} (f : α → α → α) (d : α) :
    ∀ (l1 l2 : List α) (k : ℕ), k < l1.length → k < l2.length →
      (List.zipWith f l1 l2).getD k d = f (l1.getD k d) (l2.getD k d) := by
  intro l1
  induction l1 with
  | nil => intro l2 k h1 _; simp at h1
  | cons a t ih =>
    intro l2 k h1 h2
    cases l2 with
    | nil => simp at h2
    | cons b s =>
      cases k with
      | zero => rfl
      | succ m =>
        simp only [List.zipWith_cons_cons, List.getD_cons_succ]
        exact ih s m (by simpa using h1) (by simpa using h2)

theorem maxPlane_rect {p q : List (List ℚ)} {n1 n2 : ℕ}
    (hp : Rect2 p n1 n2) (hq : Rect2 q n1 n2) :
    Rect2 (maxPlane p q) n1 n2 := by
  constructor
  · rw [maxPlane, List.length_zipWith, hp.1, hq.1, min_self]
  · intro j hj
    rw [maxPlane,
      getD_zipWith (List.zipWith max) [] p q j (by rw [hp.1]; exact hj)
        (by rw [hq.1]; exact hj),
      List.length_zipWith, hp.2 j hj, hq.2 j hj, min_self]

theorem maxPlane_entry {p q : List (List ℚ)} {n1 n2 : ℕ} {j k : ℕ}
    (hp : Rect2 p n1 n2) (hq : Rect2 q n1 n2) (hj : j < n1) (hk : k < n2) :
    ((maxPlane p q).getD j []).getD k 0 =
      max ((p.getD j []).getD k 0) ((q.getD j []).getD k 0) := by
  rw [maxPlane,
    getD_zipWith (List.zipWith max) [] p q j (by rw [hp.1]; exact hj)
      (by rw [hq.1]; exact hj),
    getD_zipWith max 0 _ _ k (by rw [hp.2 j hj]; exact hk)
      (by rw [hq.2 j hj]; exact hk)]

theorem foldl_maxPlane_entry (j k : ℕ) :
    ∀ (ps : List (List (List ℚ))) (p : List (List ℚ)) (n1 n2 : ℕ),
      j < n1 → k < n2 → Rect2 p n1 n2 → (∀ q ∈ ps, Rect2 q n1 n2) →
      ((ps.foldl maxPlane p).getD j []).getD k 0 =
        (ps.map (fun q => (q.getD j []).getD k 0)).foldl max
          ((p.getD j []).getD k 0) := by
  intro ps
  induction ps with
  | nil => intro p n1 n2 _ _ _ _; rfl
  | cons q ps ih =>
    intro p n1 n2 hj hk hp hq
    simp only [List.foldl_cons, List.map_cons]
    have hqr : Rect2 q n1 n2 := hq q (List.mem_cons_self _ _)
    rw [ih (maxPlane p q) n1 n2 hj hk (maxPlane_rect hp hqr)
        (fun r hr => hq r (List.mem_cons_of_mem _ hr)),
      maxPlane_entry hp hqr hj hk]

theorem foldl_maxRow_entry (k : ℕ) :
    ∀ (rs : List (List ℚ)) (r : List ℚ) (n2 : ℕ), k < n2 →
      r.length = n2 → (∀ s ∈ rs, s.length = n2) →
      (rs.foldl (List.zipWith max) r).getD k 0 =
        (rs.map (fun s => s.getD k 0)).foldl max (r.getD k 0) := by
  intro rs
  induction rs with
  | nil => intro r n2 _ _ _; rfl
  | cons s rs ih =>
    intro r n2 hk hr hs
    simp only [List.foldl_cons, List.map_cons]
    have hsl : s.length = n2 := hs s (List.mem_cons_self _ _)
    rw [ih (List.zipWith max r s) n2 hk
        (by rw [List.length_zipWith, hr, hsl, min_self])
        (fun v hv => hs v (List.mem_cons_of_mem _ hv)),
      getD_zipWith max 0 r s k (by rw [hr]; exact hk)
        (by rw [hsl]; exact hk)]

theorem rect3_planes {a : List (List (List ℚ))} {n0 n1 n2 : ℕ}
    (h : Rect3 a n0 n1 n2) : ∀ p ∈ a, Rect2 p n1 n2 := by
  intro p hp
  obtain ⟨m, hm, rfl⟩ := List.getElem_of_mem hp
  have h2 := h.2 m (by rw [← h.1]; exact hm)
  rwa [List.getD_eq_getElem?_getD, List.getElem?_eq_getElem hm] at h2

theorem rect2_rows {m : List (List ℚ)} {n1 n2 : ℕ}
    (h : Rect2 m n1 n2) : ∀ s ∈ m, s.length = n2 := by
  intro s hs
  obtain ⟨j, hj, rfl⟩ := List.getElem_of_mem hs
  have h2 := h.2 j (by rw [← h.1]; exact hj)
  rwa [List.getD_eq_getElem?_getD, List.getElem?_eq_getElem hj] at h2

/-- C10: `plot_max_plan_and_vert` calls `plot_plan_and_vert` with the plan
view `np.max(data, axis=2)` and the two vertical sections
`np.max(data, axis=0)` and `np.max(data, axis=1)`, passing `x`, `y`, `z`,
`unit`, `title`, `saveto` (and the filesystem context) through unchanged;
for rectangular data, the three reductions compute entrywise maxima over
the reduced axis. -/
theorem plot_max_plan_and_vert_spec (x y z : List ℚ)
    (a : List (List (List ℚ))) (u ti s : String) (fs : String → Bool)
    (n0 n1 n2 : ℕ) (hsh : Rect3 a n0 n1 n2)
    (h0 : 0 < n0) (h1 : 0 < n1) (h2 : 0 < n2) :
    plot_max_plan_and_vert x y z a u ti s fs =
      plot_plan_and_vert x y z (npMaxAxis2 a) (npMaxAxis0 a) (npMaxAxis1 a)
        u ti s fs ∧
    (∀ i j, i < n0 → j < n1 →
      isMaxOf ((a.getD i []).getD j [])
        (((npMaxAxis2 a).getD i []).getD j 0)) ∧
    (∀ j k, j < n1 → k < n2 →
      isMaxOf (a.map (fun p => (p.getD j []).getD k 0))
        (((npMaxAxis0 a).getD j []).getD k 0)) ∧
    (∀ i k, i < n0 → k < n2 →
      isMaxOf ((a.getD i []).map (fun r => r.getD k 0))
        ((npMaxAxis1 a).getD i [] |>.getD k 0)) := by
  obtain ⟨p, ps, rfl⟩ : ∃ p ps, a = p :: ps := by
    cases a with
    | nil => rw [Rect3] at hsh; simp at hsh; omega
    | cons p ps => exact ⟨p, ps, rfl⟩
  have hplanes : ∀ q ∈ p :: ps, Rect2 q n1 n2 := rect3_planes hsh
  refine ⟨rfl, ?_, ?_, ?_⟩
  · intro i j hi hj
    have hplane : Rect2 ((p :: ps).getD i []) n1 n2 := hsh.2 i hi
    have e1 : (npMaxAxis2 (p :: ps)).getD i [] =
        ((p :: ps).getD i []).map npAmax := by
      rw [npMaxAxis2]
      exact getD_map_of (fun plane => plane.map npAmax) [] [] rfl _ i
    have e2 : (((p :: ps).getD i []).map npAmax).getD j 0 =
        npAmax (((p :: ps).getD i []).getD j []) := by
      rw [show (0 : ℚ) = npAmax [] from rfl]
      exact getD_map npAmax _ j []
    rw [e1, e2]
    apply npAmax_isMax
    intro hnil
    have hlen := hplane.2 j hj
    rw [hnil] at hlen
    simp at hlen
    omega
  · intro j k hj hk
    have hpR : Rect2 p n1 n2 := hplanes p (List.mem_cons_self _ _)
    have hpsR : ∀ q ∈ ps, Rect2 q n1 n2 :=
      fun q hq => hplanes q (List.mem_cons_of_mem _ hq)
    rw [show npMaxAxis0 (p :: ps) = ps.foldl maxPlane p from rfl,
      foldl_maxPlane_entry j k ps p n1 n2 hj hk hpR hpsR]
    simpa using foldl_max_isMax
      (ps.map (fun q => (q.getD j []).getD k 0)) ((p.getD j []).getD k 0)
  · intro i k hi hk
    have hplane : Rect2 ((p :: ps).getD i []) n1 n2 := hsh.2 i hi
    have e1 : (npMaxAxis1 (p :: ps)).getD i [] =
        reduceRowsMax ((p :: ps).getD i []) := by
      rw [npMaxAxis1]
      exact getD_map_of reduceRowsMax [] [] rfl _ i
    obtain ⟨r, rs, hpl⟩ : ∃ r rs, (p :: ps).getD i [] = r :: rs := by
      cases hpl : (p :: ps).getD i [] with
      | nil =>
        have := hplane.1
        rw [hpl] at this
        simp at this
        omega
      | cons r rs => exact ⟨r, rs, rfl⟩
    have hrows : ∀ s2 ∈ r :: rs, s2.length = n2 := by
      rw [← hpl]
      exact rect2_rows hplane
    rw [e1, hpl, show reduceRowsMax (r :: rs) =
        rs.foldl (List.zipWith max) r from rfl,
      foldl_maxRow_entry k rs r n2 hk
        (hrows r (List.mem_cons_self _ _))
        (fun s2 hs2 => hrows s2 (List.mem_cons_of_mem _ hs2))]
    simpa using foldl_max_isMax
      (rs.map (fun s2 => s2.getD k 0)) (r.getD k 0)

/-- C10 witness: the `2 × 2 × 2` array `[[[1,2],[3,4]],[[5,0],[7,8]]]`:
delegation holds and, e.g., the `(0,0)` entries of the three reductions
are the maxima `2`, `5` and `3` of the corresponding fibres. -/
theorem plot_max_plan_and_vert_spec_witness :
    Rect3 [[[(1 : ℚ), 2], [3, 4]], [[5, 0], [7, 8]]] 2 2 2 ∧
    plot_max_plan_and_vert [0] [0] [0]
        [[[(1 : ℚ), 2], [3, 4]], [[5, 0], [7, 8]]] "u" "t" ""
        (fun _ => false) =
      plot_plan_and_vert [0] [0] [0]
        (npMaxAxis2 [[[(1 : ℚ), 2], [3, 4]], [[5, 0], [7, 8]]])
        (npMaxAxis0 [[[(1 : ℚ), 2], [3, 4]], [[5, 0], [7, 8]]])
        (npMaxAxis1 [[[(1 : ℚ), 2], [3, 4]], [[5, 0], [7, 8]]])
        "u" "t" "" (fun _ => false) ∧
    isMaxOf [(1 : ℚ), 2]
      (((npMaxAxis2 [[[(1 : ℚ), 2], [3, 4]], [[5, 0], [7, 8]]]).getD 0
        []).getD 0 0) ∧
    isMaxOf [(1 : ℚ), 5]
      (((npMaxAxis0 [[[(1 : ℚ), 2], [3, 4]], [[5, 0], [7, 8]]]).getD 0
        []).getD 0 0) ∧
    isMaxOf [(1 : ℚ), 3]
      (((npMaxAxis1 [[[(1 : ℚ), 2], [3, 4]], [[5, 0], [7, 8]]]).getD 0
        []).getD 0 0) := by
  have hsh : Rect3 [[[(1 : ℚ), 2], [3, 4]], [[5, 0], [7, 8]]] 2 2 2 := by
    refine ⟨rfl, ?_⟩
    intro i hi
    interval_cases i <;>
      exact ⟨rfl, by intro j hj; interval_cases j <;> rfl⟩
  have h := plot_max_plan_and_vert_spec [0] [0] [0]
    [[[(1 : ℚ), 2], [3, 4]], [[5, 0], [7, 8]]] "u" "t" ""
    (fun _ => false) 2 2 2 hsh (by norm_num) (by norm_num) (by norm_num)
  exact ⟨hsh, h.1,
    h.2.1 0 0 (by norm_num) (by norm_num),
    h.2.2.1 0 0 (by norm_num) (by norm_num),
    h.2.2.2 0 0 (by norm_num) (by norm_num)⟩

end WradlibVis
